import Mathlib

/-!
Verification of the Snap2Map calibration core.

This file shallowly embeds the calibration and projection code of the
repository (the transform module, the robust fitter, the error metrics,
the thin-plate-spline refiner, the calibration model and the position
projector) and proves or refutes the claims made about them.

Conventions of the embedding:
* JavaScript numbers are idealised as real numbers.  Division by zero is
  total in Lean (x / 0 = 0) while JavaScript produces Infinity or NaN; no
  theorem below relies on the value of a division by zero except where a
  claim is explicitly about the zero denominator, in which case a guarded
  Option-valued variant makes the case explicit.
* Thrown JavaScript errors become Except values; functions that return
  null on failure become Option valued.
* Math.random is modelled as an injectable stream of reals consumed one
  value per call, mirroring the testability note of the specification.
-/

namespace Snap2Map

/-- Error taxonomy of the calibration code.  Each constructor corresponds to
one thrown message: needAtLeastTwoPairs is the message of calibrate for
fewer than two pairs, insufficientPairsForModel its message when an
explicitly requested model type has too few pairs, insufficientPairs the
minimum-count messages of the compute functions and of computeTransform,
singularMatrix the message of solve, and ransacFailed the message of
ransac. -/
inductive CalibError where
  | needAtLeastTwoPairs
  | insufficientPairsForModel
  | insufficientPairs
  | singularMatrix
  | ransacFailed
  deriving DecidableEq, Repr

/-- A 2D point, the {x, y} object shape used throughout the source. -/
structure Pt where
  x : ℝ
  y : ℝ

/-- Euclidean distance between two points: Math.hypot of the coordinate
differences (robust.js of both implementations uses the same formula). -/
noncomputable def distance (a b : Pt) : ℝ :=
  Real.sqrt ((a.x - b.x) ^ 2 + (a.y - b.y) ^ 2)

/-- A correspondence pair in the shape used by the transform module, the
first robust module and the error metrics: world coordinates and pixel
coordinates. -/
structure WPair where
  world : Pt
  pixel : Pt

/-- The three model classes of the tagged union. -/
inductive ModelType where
  | similarity
  | affine
  | homography
  deriving DecidableEq, Repr

/-- MIN_PAIRS table of the robust module. -/
def minPairs : ModelType → Nat
  | .similarity => 2
  | .affine => 3
  | .homography => 4

/-- The fitted transform models: similarity {scale, angle, tx, ty},
affine {a, b, c, d, tx, ty}, homography {h} with h a 9-vector whose last
entry is 1. -/
inductive TModel where
  | similarity (scale angle tx ty : ℝ)
  | affine (a b c d tx ty : ℝ)
  | homography (h : List ℝ)

/-- The type tag of a model. -/
def TModel.type : TModel → ModelType
  | .similarity .. => .similarity
  | .affine .. => .affine
  | .homography .. => .homography

/-- Math.atan2 y x, via the complex argument of x + i y. -/
noncomputable def atan2 (y x : ℝ) : ℝ := Complex.arg ⟨x, y⟩

/-- Entry A[j][k] of a row-list matrix (indices are always in range at the
call sites, mirroring the JavaScript array accesses). -/
def entry (A : List (List ℝ)) (j k : Nat) : ℝ := (A.getD j []).getD k 0

/-- Swap the elements at indices i and j of a list, the destructuring swap
of the source. -/
def listSwap {α : Type} (l : List α) (i j : Nat) : List α :=
  match l.get? i, l.get? j with
  | some a, some b => (l.set i b).set j a
  | _, _ => l

/-- Map a function over a list together with each element's index. -/
def mapIdx {α : Type} (f : Nat → α → α) (l : List α) : List α :=
  l.enum.map fun p => f p.1 p.2

/-- One outer-loop step of solve: partial pivot search over rows j > i. -/
noncomputable def pivotIndex (A : List (List ℝ)) (i : Nat) : Nat :=
  (List.range' (i + 1) (A.length - (i + 1))).foldl
    (fun mx j => if |entry A mx i| < |entry A j i| then j else mx) i

/-- One column-elimination step of solve: pivot, singularity check with the
1e-12 tolerance, row swap, normalisation of row i from column i on, and
elimination of column i from every other row. -/
noncomputable def solveStep (st : List (List ℝ) × List ℝ) (i : Nat) :
    Except CalibError (List (List ℝ) × List ℝ) :=
  let A := st.1
  let b := st.2
  let mx := pivotIndex A i
  if |entry A mx i| < 1e-12 then .error .singularMatrix
  else
    let A1 := listSwap A i mx
    let b1 := listSwap b i mx
    let diag := entry A1 i i
    let A2 := A1.set i (mapIdx (fun k v => if i ≤ k then v / diag else v) (A1.getD i []))
    let b2 := b1.set i (b1.getD i 0 / diag)
    let pivRow := A2.getD i []
    let bi := b2.getD i 0
    let A3 := mapIdx (fun j row =>
      if j = i then row
      else mapIdx (fun k v => if i ≤ k then v - row.getD i 0 * pivRow.getD k 0 else v) row) A2
    let b3 := mapIdx (fun j v => if j = i then v else v - (A2.getD j []).getD i 0 * bi) b2
    .ok (A3, b3)

/-- Gaussian elimination with partial pivoting: solve A x = b, failing with
the singular-matrix error when a pivot is below the tolerance. -/
noncomputable def solve (A : List (List ℝ)) (b : List ℝ) : Except CalibError (List ℝ) :=
  ((List.range A.length).foldlM solveStep (A, b)).map (·.2)

/-- The per-row weight: weights[i] when a weight vector was passed, else 1.
(The source never indexes past the end of a supplied weight vector; the
default of getD covers that unreachable case.) -/
def weightAt (weights : Option (List ℝ)) (i : Nat) : ℝ :=
  match weights with
  | some ws => ws.getD i 1
  | none => 1

/-- Weighted least squares via the normal equations: A[j][k] accumulates
w_i * row_i[j] * row_i[k] and b[j] accumulates w_i * row_i[j] * rhs_i over
all rows i, then the square system is solved by Gaussian elimination. -/
noncomputable def leastSquares (rows : List (List ℝ)) (rhs : List ℝ)
    (weights : Option (List ℝ)) : Except CalibError (List ℝ) :=
  let m := (rows.headD []).length
  let A := (List.range m).map fun j => (List.range m).map fun k =>
    ((List.range rows.length).map fun i =>
      weightAt weights i * (rows.getD i []).getD j 0 * (rows.getD i []).getD k 0).sum
  let b := (List.range m).map fun j =>
    ((List.range rows.length).map fun i =>
      weightAt weights i * (rows.getD i []).getD j 0 * rhs.getD i 0).sum
  solve A b

/-- Similarity fit: least squares on rows [x, -y, 1, 0] and [y, x, 0, 1]
per pair, recovering scale as hypot of the first two solution entries and
angle via atan2, with each pair's weight pushed twice. -/
noncomputable def computeSimilarity (pairs : List WPair) (weights : Option (List ℝ)) :
    Except CalibError TModel :=
  if pairs.length < 2 then .error .insufficientPairs
  else
    let rows := pairs.flatMap fun p => [[p.world.x, -p.world.y, 1, 0], [p.world.y, p.world.x, 0, 1]]
    let rhs := pairs.flatMap fun p => [p.pixel.x, p.pixel.y]
    let wts := (List.range pairs.length).flatMap fun i => [weightAt weights i, weightAt weights i]
    match leastSquares rows rhs (some wts) with
    | .error e => .error e
    | .ok sol =>
      let a := sol.getD 0 0
      let b := sol.getD 1 0
      .ok (.similarity (Real.sqrt (a ^ 2 + b ^ 2)) (atan2 b a) (sol.getD 2 0) (sol.getD 3 0))

/-- Affine fit: least squares on the decoupled rows [X, Y, 1, 0, 0, 0] and
[0, 0, 0, X, Y, 1] per pair; the solution vector maps to
{a: sol0, b: sol1, tx: sol2, c: sol3, d: sol4, ty: sol5}. -/
noncomputable def computeAffine (pairs : List WPair) (weights : Option (List ℝ)) :
    Except CalibError TModel :=
  if pairs.length < 3 then .error .insufficientPairs
  else
    let rows := pairs.flatMap fun p =>
      [[p.world.x, p.world.y, 1, 0, 0, 0], [0, 0, 0, p.world.x, p.world.y, 1]]
    let rhs := pairs.flatMap fun p => [p.pixel.x, p.pixel.y]
    let wts := (List.range pairs.length).flatMap fun i => [weightAt weights i, weightAt weights i]
    match leastSquares rows rhs (some wts) with
    | .error e => .error e
    | .ok sol =>
      .ok (.affine (sol.getD 0 0) (sol.getD 1 0) (sol.getD 3 0) (sol.getD 4 0)
        (sol.getD 2 0) (sol.getD 5 0))

/-- Homography fit: least squares on the two DLT-style rows per pair with
the eight unknowns h1..h8, then h9 = 1 is appended. -/
noncomputable def computeHomography (pairs : List WPair) (weights : Option (List ℝ)) :
    Except CalibError TModel :=
  if pairs.length < 4 then .error .insufficientPairs
  else
    let rows := pairs.flatMap fun p =>
      [[p.world.x, p.world.y, 1, 0, 0, 0, -p.pixel.x * p.world.x, -p.pixel.x * p.world.y],
       [0, 0, 0, p.world.x, p.world.y, 1, -p.pixel.y * p.world.x, -p.pixel.y * p.world.y]]
    let rhs := pairs.flatMap fun p => [p.pixel.x, p.pixel.y]
    let wts := (List.range pairs.length).flatMap fun i => [weightAt weights i, weightAt weights i]
    match leastSquares rows rhs (some wts) with
    | .error e => .error e
    | .ok sol => .ok (.homography (sol ++ [1]))

/-- Homography evaluation: perspective divide by den = h7 x + h8 y + 1,
unguarded exactly as in the source (JavaScript yields non-finite numbers
when den = 0 and raises no error; Lean division by zero yields 0). -/
noncomputable def applyHomography (h : List ℝ) (w : Pt) : Pt :=
  let den := h.getD 6 0 * w.x + h.getD 7 0 * w.y + 1
  ⟨(h.getD 0 0 * w.x + h.getD 1 0 * w.y + h.getD 2 0) / den,
   (h.getD 3 0 * w.x + h.getD 4 0 * w.y + h.getD 5 0) / den⟩

/-- Guarded variant of applyHomography that makes the zero-denominator case
of the unguarded division explicit as an Option error branch. -/
noncomputable def applyHomographyChecked (h : List ℝ) (w : Pt) : Option Pt :=
  if h.getD 6 0 * w.x + h.getD 7 0 * w.y + 1 = 0 then none
  else some (applyHomography h w)

/-- Model evaluation, dispatching on the tag.  The tagged union is closed,
so the unknown-model-type branch of the source switch is unreachable. -/
noncomputable def applyTransform (m : TModel) (w : Pt) : Pt :=
  match m with
  | .similarity scale angle tx ty =>
    ⟨scale * (Real.cos angle * w.x - Real.sin angle * w.y) + tx,
     scale * (Real.sin angle * w.x + Real.cos angle * w.y) + ty⟩
  | .affine a b c d tx ty => ⟨a * w.x + b * w.y + tx, c * w.x + d * w.y + ty⟩
  | .homography h => applyHomography h w

/-- computeTransform: direct per-class fit selected by pair count —
exactly 2 pairs similarity, exactly 3 affine, 4 or more homography, and
fewer than 2 fails with the insufficient-pairs error. -/
noncomputable def computeTransform (pairs : List WPair) (weights : Option (List ℝ)) :
    Except CalibError TModel :=
  if pairs.length = 2 then computeSimilarity pairs weights
  else if pairs.length = 3 then computeAffine pairs weights
  else if 4 ≤ pairs.length then computeHomography pairs weights
  else .error .insufficientPairs

/-- Options threaded through calibrate, ransac and irls, with the source
defaults: 150 samples, inlier threshold 40, Huber delta 35, no explicitly
requested model type.  The random source rng is the injectable stream of
uniform values standing in for Math.random; the constant stream is only a
placeholder default, every theorem quantifies over the stream. -/
structure CalibOpts where
  samples : Nat := 150
  threshold : ℝ := 40
  delta : ℝ := 35
  modelType : Option ModelType := none
  rng : Nat → ℝ := fun _ => 0

/-- The Fisher-Yates loop of pickSubset: for i from length-1 down to 1,
draw j = floor(rng() * (i+1)) and swap positions i and j.  The parameter c
counts how many random values have been consumed so far. -/
noncomputable def fyLoop {α : Type} (rng : Nat → ℝ) : List α → Nat → Nat → List α
  | l, _, 0 => l
  | l, c, im + 1 =>
    let i := im + 1
    let j := (⌊rng c * ((i : ℝ) + 1)⌋).toNat
    fyLoop rng (listSwap l i j) (c + 1) im

/-- pickSubset: shuffle a copy of the array with Fisher-Yates using the
random stream from position c, then take the first k elements. -/
noncomputable def pickSubset {α : Type} (arr : List α) (k : Nat) (rng : Nat → ℝ) (c : Nat) :
    List α :=
  (fyLoop rng arr c (arr.length - 1)).take k

section Robust

variable {TM : Type}
variable (compute : ModelType → List WPair → Option (List ℝ) → Except CalibError TM)
variable (applyT : TM → Pt → Pt)

/-- The inlier collection of one ransac iteration: every input pair whose
residual distance under the candidate model is at most the threshold
(the source comparison is <=). -/
noncomputable def inliersOf (pairs : List WPair) (threshold : ℝ) (m : TM) : List WPair :=
  match pairs with
  | [] => []
  | p :: rest =>
    if distance (applyT m p.world) p.pixel ≤ threshold then
      p :: inliersOf rest threshold m
    else inliersOf rest threshold m

/-- The ransac sampling loop over the given iteration indices, carrying the
best model and its inliers; a candidate replaces the incumbent only when
its inlier count is strictly larger.  Iteration i reads the random stream
from offset i * (length - 1), the number of values one pickSubset call
consumes. -/
noncomputable def ransacLoop (pairs : List WPair) (t : ModelType) (opts : CalibOpts) :
    List Nat → Option TM × List WPair → Option TM × List WPair
  | [], best => best
  | i :: rest, best =>
    match compute t (pickSubset pairs (minPairs t) opts.rng (i * (pairs.length - 1))) none with
    | .error _ => ransacLoop pairs t opts rest best
    | .ok m =>
      let inl := inliersOf applyT pairs opts.threshold m
      if best.2.length < inl.length then ransacLoop pairs t opts rest (some m, inl)
      else ransacLoop pairs t opts rest best

/-- ransac of the first robust module: run the loop for the sample budget,
fail with the ransac error when no sample produced a model, otherwise
re-fit the winner on all of its inliers (unweighted) and return that model
with the inlier set.  An error of the final unweighted re-fit propagates
as that re-fit's own error. -/
noncomputable def ransac (pairs : List WPair) (t : ModelType) (opts : CalibOpts) :
    Except CalibError (TM × List WPair) :=
  match ransacLoop compute applyT pairs t opts (List.range opts.samples) (none, []) with
  | (none, _) => .error .ransacFailed
  | (some _, bestInliers) => (compute t bestInliers none).map fun m => (m, bestInliers)

/-- irls of the first robust module: residuals of the given model over the
given pairs, Huber weights (1 when the absolute residual is at most delta,
else delta over the absolute residual), and a single weighted re-fit whose
outcome, success or failure, is returned as is. -/
noncomputable def irls (pairs : List WPair) (model : TM) (t : ModelType) (opts : CalibOpts) :
    Except CalibError TM :=
  let residuals := pairs.map fun p => distance (applyT model p.world) p.pixel
  let weights := residuals.map fun r => if |r| ≤ opts.delta then 1 else opts.delta / |r|
  compute t pairs (some weights)

/-- The pipeline calibrate runs after its model-class selection: ransac,
then the single irls pass over the inliers, then residuals of the refined
model over all input pairs. -/
noncomputable def calibratePost (t : ModelType) (pairs : List WPair) (opts : CalibOpts) :
    Except CalibError (TM × List ℝ) := do
  let fit ← ransac compute applyT pairs t opts
  let refined ← irls compute applyT fit.2 fit.1 t opts
  .ok (refined, pairs.map fun p => distance (applyT refined p.world) p.pixel)

/-- calibrate of the first robust module: fewer than two pairs fails
immediately; then an explicitly requested model type is used as is, else
the class is chosen by count (4 or more homography, exactly 3 affine, else
similarity); a requested type whose minimum exceeds the pair count fails;
otherwise the post-selection pipeline runs at the chosen type. -/
noncomputable def calibrate (pairs : List WPair) (opts : CalibOpts) :
    Except CalibError (TM × List ℝ) :=
  if pairs.length < 2 then .error .needAtLeastTwoPairs
  else
    let t := match opts.modelType with
      | some t => t
      | none =>
        if 4 ≤ pairs.length then .homography
        else if pairs.length = 3 then .affine
        else .similarity
    if pairs.length < minPairs t then .error .insufficientPairsForModel
    else calibratePost compute applyT t pairs opts

/-- The per-iteration candidates of a ransac run, in iteration order, each
with the inlier set it would be scored by; failed fits are skipped exactly
as the loop skips them. -/
noncomputable def candidateResults (pairs : List WPair) (t : ModelType) (opts : CalibOpts) :
    List (TM × List WPair) :=
  (List.range opts.samples).filterMap fun i =>
    match compute t (pickSubset pairs (minPairs t) opts.rng (i * (pairs.length - 1))) none with
    | .error _ => none
    | .ok m => some (m, inliersOf applyT pairs opts.threshold m)

/-- Reference fold used to characterise the ransac loop: keep the first
candidate whose inlier count strictly exceeds the best seen so far. -/
def firstMaxFold : List (TM × List WPair) → Option TM × List WPair → Option TM × List WPair
  | [], best => best
  | c :: rest, best =>
    firstMaxFold rest (if best.2.length < c.2.length then (some c.1, c.2) else best)

end Robust

/-! The second robust module (robust.js of the src tree) represents models
as 3x3 matrices and imports its fitters from transforms.js; the embedding
below keeps the matrices concrete and passes the fitters as parameters at
that import boundary. -/

/-- A 3x3 real matrix, the math.js Matrix shape of the src-tree modules. -/
abbrev Mat3 := Matrix (Fin 3) (Fin 3) ℝ

/-- A correspondence pair in the shape used by the src-tree modules:
pixel coordinates and local ENU coordinates. -/
structure EPair where
  pixel : Pt
  enu : Pt

/-- projectPoint of the src-tree modules: multiply the homogeneous point
[x, y, 1] by H and divide by the third coordinate (unguarded in the
source; a zero third coordinate yields non-finite numbers in JavaScript
and 0 in Lean, and no theorem below depends on that case). -/
noncomputable def projectPoint (point : Pt) (H : Mat3) : Pt :=
  let p0 := H 0 0 * point.x + H 0 1 * point.y + H 0 2
  let p1 := H 1 0 * point.x + H 1 1 * point.y + H 1 2
  let p2 := H 2 0 * point.x + H 2 1 * point.y + H 2 2
  ⟨p0 / p2, p1 / p2⟩

/-- irls of the second robust module.  Its fitter table contains only the
affine and homography fitters (passed here at the transforms.js import
boundary); a similarity kind is unsupported and returns the initial model
after a console warning.  For the supported kinds it computes residuals
under the initial model, Huber weights with the caller-supplied delta, and
one weighted fit, falling back to the initial model when the fit returns
null. -/
noncomputable def irls2 (fitA fitH : List EPair → Option (List ℝ) → Option Mat3)
    (kind : ModelType) (inliers : List EPair) (initialModel : Mat3) (huberDelta : ℝ) : Mat3 :=
  let residuals := inliers.map fun p => distance (projectPoint p.pixel initialModel) p.enu
  let weights := residuals.map fun r => if r ≤ huberDelta then 1 else huberDelta / |r|
  match kind with
  | .similarity => initialModel
  | .affine =>
    match fitA inliers (some weights) with
    | some m => m
    | none => initialModel
  | .homography =>
    match fitH inliers (some weights) with
    | some m => m
    | none => initialModel

/-- The IRLS step exactly as the claim states it: for every kind, one
weighted re-fit with the Huber weights, keeping the initial model only
when that re-fit fails.  This is the claim-side reference definition used
to exhibit where the source deviates from it (the source performs no
re-fit for the similarity kind). -/
noncomputable def irlsAsSpecified (fitS fitA fitH : List EPair → Option (List ℝ) → Option Mat3)
    (kind : ModelType) (inliers : List EPair) (initialModel : Mat3) (huberDelta : ℝ) : Mat3 :=
  let residuals := inliers.map fun p => distance (projectPoint p.pixel initialModel) p.enu
  let weights := residuals.map fun r => if |r| ≤ huberDelta then 1 else huberDelta / |r|
  let fit := match kind with
    | .similarity => fitS
    | .affine => fitA
    | .homography => fitH
  match fit inliers (some weights) with
  | some m => m
  | none => initialModel

/-! Error metrics (error-metrics.js): inverse-distance-weighted local RMSE
over a fitted transform model and its pair set. -/

/-- The error metrics state: the fitted model and the pair set it is
evaluated over. -/
structure ErrorMetrics where
  model : TModel
  pairs : List WPair

/-- localRMSE: 0 for an empty pair set; otherwise one pass collects, per
pair, the residual of the model and the weight 1 / (distance from the
query point to the projected world point + 1), and a second pass
accumulates the weighted sum of squared residuals and the sum of weights,
returning the square root of their quotient. -/
noncomputable def localRMSE (em : ErrorMetrics) (px : Pt) : ℝ :=
  if em.pairs.isEmpty then 0
  else
    let weights := em.pairs.map fun p =>
      1 / (distance px (applyTransform em.model p.world) + 1)
    let errs := em.pairs.map fun p => distance (applyTransform em.model p.world) p.pixel
    let nd := (weights.zip errs).foldl
      (fun (nd : ℝ × ℝ) we => (nd.1 + we.1 * we.2 * we.2, nd.2 + we.1)) (0, 0)
    Real.sqrt (nd.1 / nd.2)

/-! Geodetic projection (coords.js): WGS84 to ECEF to a local ENU tangent
plane. -/

/-- A WGS84 coordinate in degrees. -/
structure LatLon where
  lat : ℝ
  lon : ℝ

/-- A 3D vector for ECEF and 3D ENU coordinates. -/
structure V3 where
  x : ℝ
  y : ℝ
  z : ℝ

/-- WGS84 semi-major axis in meters. -/
def wgsA : ℝ := 6378137.0

/-- WGS84 flattening. -/
noncomputable def wgsF : ℝ := 1 / 298.257223563

/-- WGS84 semi-minor axis. -/
noncomputable def wgsB : ℝ := wgsA * (1 - wgsF)

/-- WGS84 eccentricity squared. -/
noncomputable def wgsE2 : ℝ := wgsF * (2 - wgsF)

/-- Geodetic to ECEF conversion on the WGS84 ellipsoid. -/
noncomputable def wgs84ToEcef (lat lon alt : ℝ) : V3 :=
  let latRad := lat * (Real.pi / 180)
  let lonRad := lon * (Real.pi / 180)
  let cosLat := Real.cos latRad
  let sinLat := Real.sin latRad
  let N := wgsA / Real.sqrt (1 - wgsE2 * sinLat * sinLat)
  ⟨(N + alt) * cosLat * Real.cos lonRad,
   (N + alt) * cosLat * Real.sin lonRad,
   (wgsB * wgsB / (wgsA * wgsA) * N + alt) * sinLat⟩

/-- ECEF to local East-North-Up coordinates about an origin (altitude 0 at
the call site below). -/
noncomputable def ecefToEnu (ecef : V3) (originLat originLon originAlt : ℝ) : V3 :=
  let originEcef := wgs84ToEcef originLat originLon originAlt
  let dx := ecef.x - originEcef.x
  let dy := ecef.y - originEcef.y
  let dz := ecef.z - originEcef.z
  let latRad := originLat * (Real.pi / 180)
  let lonRad := originLon * (Real.pi / 180)
  let cosLat := Real.cos latRad
  let sinLat := Real.sin latRad
  let cosLon := Real.cos lonRad
  let sinLon := Real.sin lonRad
  ⟨-sinLon * dx + cosLon * dy,
   -sinLat * cosLon * dx - sinLat * sinLon * dy + cosLat * dz,
   cosLat * cosLon * dx + cosLat * sinLon * dy + sinLat * dz⟩

/-- projectToEnu: WGS84 point to the 2D ENU plane anchored at the origin. -/
noncomputable def projectToEnu (point origin : LatLon) : Pt :=
  let ecefPoint := wgs84ToEcef point.lat point.lon 0
  let enuPoint := ecefToEnu ecefPoint origin.lat origin.lon 0
  ⟨enuPoint.x, enuPoint.y⟩

/-- ENU to ECEF conversion about an origin: the transposed rotation of
ecefToEnu applied to the ENU vector, added to the origin's ECEF
position. -/
noncomputable def enuToEcef (enu : V3) (originLat originLon originAlt : ℝ) : V3 :=
  let originEcef := wgs84ToEcef originLat originLon originAlt
  let latRad := originLat * (Real.pi / 180)
  let lonRad := originLon * (Real.pi / 180)
  let cosLat := Real.cos latRad
  let sinLat := Real.sin latRad
  let cosLon := Real.cos lonRad
  let sinLon := Real.sin lonRad
  ⟨originEcef.x + (-sinLon * enu.x - sinLat * cosLon * enu.y + cosLat * cosLon * enu.z),
   originEcef.y + (cosLon * enu.x - sinLat * sinLon * enu.y + cosLat * sinLon * enu.z),
   originEcef.z + (cosLat * enu.y + sinLat * enu.z)⟩

/-- A geodetic coordinate with altitude, the result shape of the
ECEF-to-geodetic conversion. -/
structure Geo3 where
  lat : ℝ
  lon : ℝ
  alt : ℝ

/-- The fixed-count latitude/altitude loop of the ECEF-to-geodetic
conversion: each round recomputes N from the current latitude, derives the
altitude, and updates the latitude via atan2; the state carries
(lat, alt). -/
noncomputable def ecefLatIter (z p : ℝ) : Nat → ℝ × ℝ → ℝ × ℝ
  | 0, st => st
  | n + 1, st =>
    let sinLat := Real.sin st.1
    let N := wgsA / Real.sqrt (1 - wgsE2 * sinLat * sinLat)
    let alt := p / Real.cos st.1 - N
    ecefLatIter z p n (atan2 z (p * (1 - wgsE2 * N / (N + alt))), alt)

/-- ECEF to geodetic conversion: longitude in closed form, latitude and
altitude from 5 rounds of the iteration started at
lat = atan2(z, p (1 - e2)), alt = 0, results converted to degrees. -/
noncomputable def ecefToWgs84 (ecef : V3) : Geo3 :=
  let p := Real.sqrt (ecef.x * ecef.x + ecef.y * ecef.y)
  let lon := atan2 ecef.y ecef.x
  let st := ecefLatIter ecef.z p 5 (atan2 ecef.z (p * (1 - wgsE2)), 0)
  ⟨st.1 * (180 / Real.pi), lon * (180 / Real.pi), st.2⟩

/-- unprojectFromEnu: the 2D ENU point is lifted with a zero up-component,
converted back to ECEF about the origin and then to geodetic
coordinates. -/
noncomputable def unprojectFromEnu (point : Pt) (origin : LatLon) : LatLon :=
  let ecefPoint := enuToEcef ⟨point.x, point.y, 0⟩ origin.lat origin.lon 0
  let w := ecefToWgs84 ecefPoint
  ⟨w.lat, w.lon⟩

/-! Thin-plate-spline refiner (tps.js). -/

/-- The TPS radial basis U(r) = r^2 log r with U(0) = 0. -/
noncomputable def tpsU (r : ℝ) : ℝ := if r = 0 then 0 else r ^ 2 * Real.log r

/-- The (n+3) x (n+3) TPS system matrix as a row list: the kernel block
U(|c_i - c_j|) with lambda added on its diagonal, the affine columns
[1, x, y] and their transpose, and a zero bottom-right 3x3 block. -/
noncomputable def tpsL (cps : List Pt) (lam : ℝ) : List (List ℝ) :=
  let n := cps.length
  (List.range (n + 3)).map fun i => (List.range (n + 3)).map fun j =>
    if i < n then
      if j < n then
        tpsU (distance (cps.getD i ⟨0, 0⟩) (cps.getD j ⟨0, 0⟩)) + (if i = j then lam else 0)
      else if j = n then 1
      else if j = n + 1 then (cps.getD i ⟨0, 0⟩).x
      else (cps.getD i ⟨0, 0⟩).y
    else if j < n then
      if i = n then 1
      else if i = n + 1 then (cps.getD j ⟨0, 0⟩).x
      else (cps.getD j ⟨0, 0⟩).y
    else 0

/-- The TPS right-hand side for one coordinate: the target coordinates
padded with three zeros. -/
def tpsY (coords : List ℝ) : List ℝ := coords ++ [0, 0, 0]

/-- The TPS refiner state: control points and the two weight vectors; all
are unset on construction and remain unset or are cleared on failure. -/
structure RefinerTPS where
  controlPoints : Option (List Pt) := none
  weightsX : Option (List ℝ) := none
  weightsY : Option (List ℝ) := none

/-- RefinerTPS.fit: with fewer than 3 control points the state is left
untouched; otherwise the control points are recorded, the system matrix is
built and both weight vectors are solved via the linear solver passed at
the math.js import boundary (math.lusolve, which fails on a singular
system).  When either solve fails both weight vectors end up null while
the control points stay recorded, exactly as the catch block of the
source leaves them. -/
noncomputable def RefinerTPS.fit (self : RefinerTPS)
    (lusolve : List (List ℝ) → List ℝ → Option (List ℝ))
    (controlPoints targetPoints : List Pt) (lam : ℝ) : RefinerTPS :=
  if controlPoints.length < 3 then self
  else
    let L := tpsL controlPoints lam
    match lusolve L (tpsY (targetPoints.map (·.x))), lusolve L (tpsY (targetPoints.map (·.y))) with
    | some wx, some wy =>
      { controlPoints := some controlPoints, weightsX := some wx, weightsY := some wy }
    | _, _ =>
      { controlPoints := some controlPoints, weightsX := none, weightsY := none }

/-- RefinerTPS.warp: null when the weights or the control points are unset
(the source tests weightsX and controlPoints; fit only ever sets the two
weight vectors together); otherwise the affine part plus the weighted
radial sum over the control points. -/
noncomputable def RefinerTPS.warp (self : RefinerTPS) (point : Pt) : Option Pt :=
  match self.weightsX, self.weightsY, self.controlPoints with
  | some wx, some wy, some cps =>
    let n := cps.length
    let base : Pt :=
      ⟨wx.getD n 0 + wx.getD (n + 1) 0 * point.x + wx.getD (n + 2) 0 * point.y,
       wy.getD n 0 + wy.getD (n + 1) 0 * point.x + wy.getD (n + 2) 0 * point.y⟩
    some ((List.range n).foldl (fun (acc : Pt) i =>
      let u := tpsU (distance point (cps.getD i ⟨0, 0⟩))
      ⟨acc.x + wx.getD i 0 * u, acc.y + wy.getD i 0 * u⟩) base)
  | _, _, _ => none

/-! The calibration model (model.js): base transform matrix, optional TPS
refiner, ENU origin and inlier set (the correspondence bookkeeping fields
not involved in any claim are elided). -/

/-- math.inv at the import boundary: the inverse of a 3x3 matrix, failing
(math.js throws) when the matrix is singular. -/
noncomputable def matInv (T : Mat3) : Option Mat3 :=
  if T.det = 0 then none else some T⁻¹

/-- The calibration model state. -/
structure CalibModel where
  transform : Option Mat3 := none
  tpsRefiner : Option RefinerTPS := none
  enuOrigin : Option LatLon := none
  inliers : List EPair := []

/-- projectLatLonToPixel: null without a transform and origin; otherwise
project the WGS84 point to ENU and apply the inverse of the base
transform.  The TPS refiner is deliberately ignored on this inverse
path. -/
noncomputable def projectLatLonToPixel (self : CalibModel) (latLon : LatLon) : Option Pt :=
  match self.transform, self.enuOrigin with
  | some T, some origin =>
    (matInv T).map fun invT => projectPoint (projectToEnu latLon origin) invT
  | _, _ => none

/-- projectPixelToEnu: null without a transform; otherwise warp the pixel
through the TPS refiner when one is present and push the result through
the base transform.  When the refiner is present but its warp returns null
(a failed TPS fit), the source passes null into projectPoint and crashes;
that crash is modelled as none. -/
noncomputable def projectPixelToEnu (self : CalibModel) (pixel : Pt) : Option Pt :=
  match self.transform with
  | none => none
  | some T =>
    let warped := match self.tpsRefiner with
      | some r => r.warp pixel
      | none => some pixel
    match warped with
    | some w => some (projectPoint w T)
    | none => none

/-- enableTPS: requires a base transform and at least 3 inliers, else
returns with the state unchanged; inverts the base transform (math.inv
throws on a singular transform, leaving the state unchanged), uses the
inlier pixels as control points and their ENU coordinates pushed through
the inverse transform as targets, and installs a freshly fitted refiner
whether or not the fit succeeded internally. -/
noncomputable def enableTPS (self : CalibModel)
    (lusolve : List (List ℝ) → List ℝ → Option (List ℝ)) (lam : ℝ) : CalibModel :=
  match self.transform with
  | none => self
  | some T =>
    if self.inliers.length < 3 then self
    else
      match matInv T with
      | none => self
      | some invT =>
        let controlPoints := self.inliers.map (·.pixel)
        let targetPoints := self.inliers.map fun p => projectPoint p.enu invT
        let fresh : RefinerTPS := {}
        let refiner := fresh.fit lusolve controlPoints targetPoints lam
        { self with tpsRefiner := some refiner }

/-! Position projector (projector.js): combines the projected pixel with a
map-uncertainty and the GPS accuracy. -/

/-- A live GPS fix; accuracy is optional (pos.accuracy || 0 in the
source). -/
structure GpsPos where
  lat : ℝ
  lon : ℝ
  accuracy : Option ℝ := none

/-- The result shape of PositionProjector.toPixel. -/
structure PixelFix where
  px : Pt
  sigmaMap : ℝ
  sigmaTotal : ℝ

/-- The calibration interface the projector consumes: a forward
lat/lon-to-pixel projection and optional error metrics.  Modelled from the
spec: the CalibrationModel implementation consumed here is present in the
repository only through its tests, so its projection is kept abstract as
a function field; the metrics member is the concrete ErrorMetrics. -/
structure ProjCalibModel where
  projectLatLonToPixel : ℝ → ℝ → Pt
  metrics : Option ErrorMetrics := none

/-- The map uncertainty used by toPixel: the local RMSE of the metrics at
the projected pixel, or 0 when the model has no metrics. -/
noncomputable def sigmaMapFor (m : ProjCalibModel) (px : Pt) : ℝ :=
  match m.metrics with
  | some em => localRMSE em px
  | none => 0

/-- The position projector: holds an optional calibration model. -/
structure PositionProjector where
  model : Option ProjCalibModel := none

/-- toPixel: fails (the source throws) without a calibration; otherwise
projects the fix, reads sigmaMap from the metrics, defaults a missing
accuracy to 0 and combines sigmaTotal = sqrt(accuracy^2 + sigmaMap^2). -/
noncomputable def toPixel (self : PositionProjector) (pos : GpsPos) : Option PixelFix :=
  match self.model with
  | none => none
  | some m =>
    let px := m.projectLatLonToPixel pos.lat pos.lon
    let sigmaMap := sigmaMapFor m px
    let acc := pos.accuracy.getD 0
    some ⟨px, sigmaMap, Real.sqrt (acc * acc + sigmaMap * sigmaMap)⟩

/-! Concrete fixtures used to instantiate the parameterised import
boundaries (the transform table of the robust module, the fitters of the
second robust module, the linear solver of the TPS refiner) in closed
witness and counterexample statements. -/

/-- A fitting table that always succeeds and records the requested model
type as the model, used to observe which type calibrate dispatches on. -/
def toyCompute : ModelType → List WPair → Option (List ℝ) → Except CalibError ModelType :=
  fun t _ _ => .ok t

/-- The identity evaluation for the type-recording fitting table. -/
def toyApply : ModelType → Pt → Pt := fun _ p => p

/-- A fitting table with a trivial model type that always succeeds. -/
def toyComputeU : ModelType → List WPair → Option (List ℝ) → Except CalibError Unit :=
  fun _ _ _ => .ok ()

/-- The identity evaluation for the trivial fitting table. -/
def toyApplyU : Unit → Pt → Pt := fun _ p => p

/-- A correspondence pair whose world and pixel points coincide at the
origin. -/
noncomputable def wz : WPair := ⟨⟨0, 0⟩, ⟨0, 0⟩⟩

/-- A correspondence pair whose pixel point lies at distance exactly 40
(the default inlier threshold) from its world point. -/
noncomputable def wb : WPair := ⟨⟨0, 0⟩, ⟨40, 0⟩⟩

end Snap2Map

namespace Snap2Map

/-! Helper lemmas. -/

theorem distance_nonneg (a b : Pt) : 0 ≤ distance a b := Real.sqrt_nonneg _

theorem localRMSE_nonneg (em : ErrorMetrics) (px : Pt) : 0 ≤ localRMSE em px := by
  unfold localRMSE
  split
  · exact le_rfl
  · exact Real.sqrt_nonneg _

theorem sigmaMapFor_nonneg (m : ProjCalibModel) (px : Pt) : 0 ≤ sigmaMapFor m px := by
  unfold sigmaMapFor
  split
  · exact localRMSE_nonneg _ _
  · exact le_rfl

theorem getD_replicate_one : ∀ (n i : Nat), (List.replicate n (1 : ℝ)).getD i 1 = 1 := by
  intro n
  induction n with
  | zero => intro i; simp [List.getD]
  | succ k ih =>
    intro i
    cases i with
    | zero => simp [List.replicate]
    | succ j => simp only [List.replicate, List.getD_cons_succ]; exact ih j

theorem weightAt_replicate_one (n i : Nat) :
    weightAt (some (List.replicate n (1 : ℝ))) i = weightAt none i := by
  simp [weightAt, getD_replicate_one]

theorem foldl_weighted_sums (l : List (ℝ × ℝ)) : ∀ (a b : ℝ),
    l.foldl (fun (nd : ℝ × ℝ) we => (nd.1 + we.1 * we.2 * we.2, nd.2 + we.1)) (a, b)
      = (a + (l.map fun we => we.1 * we.2 * we.2).sum, b + (l.map (·.1)).sum) := by
  induction l with
  | nil => intro a b; simp
  | cons hd tl ih =>
    intro a b
    simp only [List.foldl_cons, List.map_cons, List.sum_cons, ih, Prod.mk.injEq]
    constructor <;> ring

theorem atan2_zero_of_pos {c : ℝ} (hc : 0 < c) : atan2 0 c = 0 := by
  unfold atan2
  exact Complex.arg_ofReal_of_nonneg hc.le

theorem arctan_lt_of_pos {y : ℝ} (hy : 0 < y) : Real.arctan y < y := by
  have h0 : 0 < Real.arctan y := by
    have h := Real.arctan_strictMono hy
    rwa [Real.arctan_zero] at h
  have h2 := Real.lt_tan h0 (Real.arctan_lt_pi_div_two y)
  rwa [Real.tan_arctan] at h2

theorem atan2_mul_of_pos (s : ℝ) {c : ℝ} (hc : 0 < c) :
    atan2 (c * s) c = Real.arctan s := by
  unfold atan2
  have h1 : (⟨c, c * s⟩ : ℂ) = (c : ℂ) * ⟨1, s⟩ := by
    apply Complex.ext
    · simp [Complex.mul_re]
    · simp [Complex.mul_im]
  rw [h1, Complex.arg_real_mul _ hc, Real.arctan_eq_arcsin]
  unfold Complex.arg
  rw [if_pos (by norm_num : (0 : ℝ) ≤ (⟨1, s⟩ : ℂ).re)]
  rw [Complex.abs_apply, Complex.normSq_mk]
  show Real.arcsin (s / Real.sqrt (1 * 1 + s * s)) = Real.arcsin (s / Real.sqrt (1 + s ^ 2))
  rw [show (1 : ℝ) * 1 + s * s = 1 + s ^ 2 by ring]

theorem projectToEnu_equator (lon : ℝ) :
    projectToEnu ⟨0, lon⟩ ⟨0, 0⟩ = ⟨wgsA * Real.sin (lon * (Real.pi / 180)), 0⟩ := by
  unfold projectToEnu ecefToEnu wgs84ToEcef
  simp

theorem ecefLatIter_equator (p : ℝ) (hppos : 0 < p) (hple : wgsA ≤ p) :
    ecefLatIter 0 p 5 (0, 0) = (0, p - wgsA) := by
  have hApos : (0 : ℝ) < wgsA := by norm_num [wgsA]
  have he2lt : wgsE2 < 1 := by norm_num [wgsE2, wgsF]
  have he2pos : 0 < wgsE2 := by norm_num [wgsE2, wgsF]
  have hstep : ∀ (k : Nat) (alt0 : ℝ),
      ecefLatIter 0 p (k + 1) (0, alt0) = ecefLatIter 0 p k (0, p - wgsA) := by
    intro k alt0
    conv_lhs => rw [ecefLatIter]
    simp only [Real.sin_zero, Real.cos_zero, mul_zero, zero_mul, sub_zero, Real.sqrt_one, div_one]
    rw [show wgsA + (p - wgsA) = p by ring]
    rw [show p * (1 - wgsE2 * wgsA / p) = p - wgsE2 * wgsA by field_simp]
    rw [atan2_zero_of_pos (by nlinarith)]
  rw [hstep 4 0, hstep 3 (p - wgsA), hstep 2 (p - wgsA), hstep 1 (p - wgsA),
    hstep 0 (p - wgsA)]
  rfl

theorem unproject_equator (s : ℝ) :
    unprojectFromEnu ⟨wgsA * s, 0⟩ ⟨0, 0⟩ = ⟨0, Real.arctan s * (180 / Real.pi)⟩ := by
  have hApos : (0 : ℝ) < wgsA := by norm_num [wgsA]
  have he2lt : wgsE2 < 1 := by norm_num [wgsE2, wgsF]
  have hecef : enuToEcef ⟨wgsA * s, 0, 0⟩ 0 0 0 = ⟨wgsA, wgsA * s, 0⟩ := by
    unfold enuToEcef wgs84ToEcef
    simp
  have hple : wgsA ≤ Real.sqrt (wgsA * wgsA + wgsA * s * (wgsA * s)) := by
    calc wgsA = Real.sqrt (wgsA * wgsA) := (Real.sqrt_mul_self hApos.le).symm
      _ ≤ _ := Real.sqrt_le_sqrt (by nlinarith [mul_self_nonneg (wgsA * s)])
  have hppos : 0 < Real.sqrt (wgsA * wgsA + wgsA * s * (wgsA * s)) :=
    lt_of_lt_of_le hApos hple
  unfold unprojectFromEnu
  simp only [hecef]
  unfold ecefToWgs84
  simp only []
  rw [atan2_zero_of_pos (by nlinarith)]
  rw [ecefLatIter_equator _ hppos hple]
  rw [atan2_mul_of_pos s hApos]
  simp

theorem roundtrip_equator (lon : ℝ) :
    unprojectFromEnu (projectToEnu ⟨0, lon⟩ ⟨0, 0⟩) ⟨0, 0⟩
      = ⟨0, Real.arctan (Real.sin (lon * (Real.pi / 180))) * (180 / Real.pi)⟩ := by
  rw [projectToEnu_equator, unproject_equator]

/-- C5 (amended): in exact arithmetic the ENU round trip does not hold 4
decimal degrees out to a few hundred kilometers.  The forward projection
discards the ENU up-component and the inverse assumes a zero up-component,
so along the equator the round trip returns latitude exactly 0 and
longitude (180/pi) * arctan(sin(lon * pi/180)) for input longitude lon —
exact at the origin itself, but with a cubic defect that exceeds 1e-4
degrees already at 3 degrees of longitude (about 334 km), so the claimed
tolerance can hold only at far shorter ranges. -/
theorem roundTrip_equator_characterization (lon : ℝ) :
    unprojectFromEnu (projectToEnu ⟨0, lon⟩ ⟨0, 0⟩) ⟨0, 0⟩
      = ⟨0, Real.arctan (Real.sin (lon * (Real.pi / 180))) * (180 / Real.pi)⟩
    ∧ unprojectFromEnu (projectToEnu ⟨0, 0⟩ ⟨0, 0⟩) ⟨0, 0⟩ = ⟨0, 0⟩ := by
  refine ⟨roundtrip_equator lon, ?_⟩
  rw [roundtrip_equator 0]
  simp

/-- Counterexample for C5 as stated: the point 3 degrees of longitude east
of an equatorial origin lies about 334 km away (well within a few hundred
kilometers), yet the round trip through the local plane returns a
longitude that misses the input by more than 1e-4 degrees (about 4.1e-3
degrees, roughly 460 m) already in exact real arithmetic. -/
theorem roundTrip_drift_at_334km :
    distance (projectToEnu ⟨0, 3⟩ ⟨0, 0⟩) ⟨0, 0⟩ ≤ 400000
    ∧ (unprojectFromEnu (projectToEnu ⟨0, 3⟩ ⟨0, 0⟩) ⟨0, 0⟩).lat = 0
    ∧ 1e-4 < |(unprojectFromEnu (projectToEnu ⟨0, 3⟩ ⟨0, 0⟩) ⟨0, 0⟩).lon - 3| := by
  have hπl : (3.14 : ℝ) < Real.pi := Real.pi_gt_d2
  have hπu : Real.pi < 3.15 := Real.pi_lt_d2
  set t := 3 * (Real.pi / 180) with htdef
  have ht1 : (0.0523 : ℝ) < t := by rw [htdef]; linarith
  have ht2 : t < 0.0525 := by rw [htdef]; linarith
  have htpos : 0 < t := by linarith
  have hspos : 0 < Real.sin t :=
    Real.sin_pos_of_pos_of_lt_pi htpos (by linarith)
  have hslt : Real.sin t < t := Real.sin_lt htpos
  have hApos : (0 : ℝ) < wgsA := by norm_num [wgsA]
  refine ⟨?_, ?_, ?_⟩
  · rw [projectToEnu_equator 3, ← htdef]
    unfold distance
    rw [show (⟨wgsA * Real.sin t, 0⟩ : Pt).x - (⟨(0 : ℝ), 0⟩ : Pt).x = wgsA * Real.sin t
        from by simp]
    rw [show (⟨wgsA * Real.sin t, 0⟩ : Pt).y - (⟨(0 : ℝ), 0⟩ : Pt).y = 0 from by simp]
    rw [show (wgsA * Real.sin t) ^ 2 + (0 : ℝ) ^ 2 = (wgsA * Real.sin t) ^ 2 by ring]
    rw [Real.sqrt_sq_eq_abs, abs_of_pos (mul_pos hApos hspos)]
    have hs525 : Real.sin t < 0.0525 := lt_trans hslt ht2
    calc wgsA * Real.sin t ≤ wgsA * 0.0525 := (mul_lt_mul_of_pos_left hs525 hApos).le
      _ ≤ 400000 := by norm_num [wgsA]
  · rw [roundtrip_equator 3]
  · rw [roundtrip_equator 3, ← htdef]
    show 1e-4 < |Real.arctan (Real.sin t) * (180 / Real.pi) - 3|
    have hπpos : 0 < Real.pi := Real.pi_pos
    have h3 : t * (180 / Real.pi) = 3 := by
      rw [htdef]
      field_simp
    have harc_le : Real.arctan (Real.sin t) ≤ Real.sin t := (arctan_lt_of_pos hspos).le
    have htle1 : |t| ≤ 1 := by
      rw [abs_of_pos htpos]
      linarith
    have hsinbound := Real.sin_bound htle1
    have hsin_le : Real.sin t ≤ t - t ^ 3 / 6 + t ^ 4 * (5 / 96) := by
      have h := (abs_le.mp hsinbound).2
      rw [abs_of_pos htpos] at h
      linarith
    have hc3 : (0.0523 : ℝ) ^ 3 < t ^ 3 :=
      pow_lt_pow_left₀ ht1 (by norm_num) (by norm_num)
    have hc4 : t ^ 4 < (0.0525 : ℝ) ^ 4 :=
      pow_lt_pow_left₀ ht2 htpos.le (by norm_num)
    have hkey : 1e-4 * (Real.pi / 180) < t - Real.arctan (Real.sin t) := by
      nlinarith [hc3, hc4, harc_le, hsin_le, hπu]
    have hAlt3 : Real.arctan (Real.sin t) * (180 / Real.pi) < 3 := by
      rw [← h3]
      have : Real.arctan (Real.sin t) < t := by nlinarith [hkey, hπpos]
      exact mul_lt_mul_of_pos_right this (by positivity)
    rw [abs_of_neg (by linarith : Real.arctan (Real.sin t) * (180 / Real.pi) - 3 < 0)]
    rw [show -(Real.arctan (Real.sin t) * (180 / Real.pi) - 3)
        = (t - Real.arctan (Real.sin t)) * (180 / Real.pi) + (3 - t * (180 / Real.pi)) by ring]
    rw [h3]
    have hfinal : 1e-4 = 1e-4 * (Real.pi / 180) * (180 / Real.pi) := by
      field_simp
    rw [hfinal]
    have h180 : (0 : ℝ) < 180 / Real.pi := by positivity
    nlinarith [mul_lt_mul_of_pos_right hkey h180]

/-- C8: inverse projection (geodetic to pixel) is independent of the TPS
refinement state: projectLatLonToPixel reads only the base transform and
the ENU origin, so two calibrations differing only in their TPS refiner
(and inlier bookkeeping) project identically. -/
theorem projectLatLonToPixel_ignores_tps
    (T : Option Mat3) (tps tps' : Option RefinerTPS) (o : Option LatLon)
    (inl inl' : List EPair) (p : LatLon) :
    projectLatLonToPixel ⟨T, tps, o, inl⟩ p = projectLatLonToPixel ⟨T, tps', o, inl'⟩ p := rfl

/-- C10: homography evaluation divides by den = h7 x + h8 y + 1 without a
guard.  Whenever den is nonzero the guarded embedding returns the
well-defined evaluated point, and there are a model and a point with
den = 0, where the source raises no error (it produces non-finite
numbers) and the guarded embedding reaches its error branch. -/
theorem applyHomography_denominator :
    (∀ (h : List ℝ) (w : Pt), h.getD 6 0 * w.x + h.getD 7 0 * w.y + 1 ≠ 0 →
      applyHomographyChecked h w = some (applyHomography h w))
    ∧ ∃ (h : List ℝ) (w : Pt),
        h.getD 6 0 * w.x + h.getD 7 0 * w.y + 1 = 0 ∧ applyHomographyChecked h w = none := by
  constructor
  · intro h w hden
    unfold applyHomographyChecked
    rw [if_neg hden]
  · refine ⟨[0, 0, 0, 0, 0, 0, -1, 0, 1], ⟨1, 0⟩, ?_, ?_⟩
    · simp [List.getD]
    · unfold applyHomographyChecked
      rw [if_pos (by simp [List.getD])]

/-- Witness for C10 at a concrete nonzero denominator. -/
theorem applyHomography_denominator_witness :
    (([0, 0, 0, 0, 0, 0, 0, 0, 1] : List ℝ).getD 6 0 * (1 : ℝ) + ([0, 0, 0, 0, 0, 0, 0, 0, 1] : List ℝ).getD 7 0 * (0 : ℝ) + 1 ≠ 0)
    ∧ applyHomographyChecked [0, 0, 0, 0, 0, 0, 0, 0, 1] ⟨1, 0⟩
        = some (applyHomography [0, 0, 0, 0, 0, 0, 0, 0, 1] ⟨1, 0⟩) := by
  have hden : ([0, 0, 0, 0, 0, 0, 0, 0, 1] : List ℝ).getD 6 0 * (1 : ℝ)
      + ([0, 0, 0, 0, 0, 0, 0, 0, 1] : List ℝ).getD 7 0 * (0 : ℝ) + 1 ≠ 0 := by
    simp [List.getD]
  exact ⟨hden, applyHomography_denominator.1 [0, 0, 0, 0, 0, 0, 0, 0, 1] ⟨1, 0⟩ hden⟩

/-- C7: localRMSE weights each pair by one over one plus the distance from
the query point to the projected world point of the pair, returns the
square root of the weighted sum of squared residuals over the sum of
weights, and returns exactly 0 on an empty pair list. -/
theorem localRMSE_closed_form (em : ErrorMetrics) (px : Pt) :
    localRMSE em px =
      if em.pairs.isEmpty then 0
      else Real.sqrt
        ((em.pairs.map fun p =>
            (1 / (1 + distance px (applyTransform em.model p.world)))
              * distance (applyTransform em.model p.world) p.pixel ^ 2).sum
          / (em.pairs.map fun p =>
              1 / (1 + distance px (applyTransform em.model p.world))).sum) := by
  unfold localRMSE
  split
  · rfl
  · simp only [List.zip_map', List.map_map, foldl_weighted_sums, zero_add]
    congr 2
    · congr 1
      apply List.map_congr_left
      intro p _
      simp only [Function.comp]
      rw [add_comm (distance px (applyTransform em.model p.world)) 1]
      ring
    · congr 1
      apply List.map_congr_left
      intro p _
      simp only [Function.comp]
      rw [add_comm (distance px (applyTransform em.model p.world)) 1]

/-- C6: the weighted fitting functions of the transform module, and the
least-squares routine underlying them, return the same model when given
the all-ones weight vector as when the weight argument is omitted. -/
theorem fit_with_unit_weights_eq (rows : List (List ℝ)) (rhs : List ℝ) (pairs : List WPair) :
    leastSquares rows rhs (some (List.replicate rows.length 1)) = leastSquares rows rhs none
    ∧ computeSimilarity pairs (some (List.replicate pairs.length 1)) = computeSimilarity pairs none
    ∧ computeAffine pairs (some (List.replicate pairs.length 1)) = computeAffine pairs none
    ∧ computeHomography pairs (some (List.replicate pairs.length 1)) = computeHomography pairs none := by
  refine ⟨?_, ?_, ?_, ?_⟩
  · unfold leastSquares
    simp only [weightAt_replicate_one]
  · unfold computeSimilarity
    simp only [weightAt_replicate_one]
  · unfold computeAffine
    simp only [weightAt_replicate_one]
  · unfold computeHomography
    simp only [weightAt_replicate_one]

/-- C3 (amended): the IRLS step of the second robust module computes
residuals under the initial model and the Huber weights (1 when the
absolute residual is at most delta, else delta over the absolute
residual), performs one weighted re-fit for the affine and homography
kinds, returning the initial model if that re-fit fails; for the
similarity kind it performs no re-fit and returns the initial model
unchanged. -/
theorem irls2_spec (fitA fitH : List EPair → Option (List ℝ) → Option Mat3)
    (inliers : List EPair) (M0 : Mat3) (δ : ℝ) :
    ((inliers.map fun p => distance (projectPoint p.pixel M0) p.enu).map
        fun r => if r ≤ δ then (1 : ℝ) else δ / |r|)
      = (inliers.map fun p =>
          if |distance (projectPoint p.pixel M0) p.enu| ≤ δ then (1 : ℝ)
          else δ / |distance (projectPoint p.pixel M0) p.enu|)
    ∧ irls2 fitA fitH .affine inliers M0 δ
        = (fitA inliers (some ((inliers.map fun p => distance (projectPoint p.pixel M0) p.enu).map
            fun r => if r ≤ δ then (1 : ℝ) else δ / |r|))).getD M0
    ∧ irls2 fitA fitH .homography inliers M0 δ
        = (fitH inliers (some ((inliers.map fun p => distance (projectPoint p.pixel M0) p.enu).map
            fun r => if r ≤ δ then (1 : ℝ) else δ / |r|))).getD M0
    ∧ irls2 fitA fitH .similarity inliers M0 δ = M0 := by
  refine ⟨?_, ?_, ?_, rfl⟩
  · rw [List.map_map]
    apply List.map_congr_left
    intro p _
    simp only [Function.comp]
    rw [abs_of_nonneg (distance_nonneg _ _)]
  · simp only [irls2, List.map_map]
    cases h : fitA inliers (some (inliers.map
        ((fun r => if r ≤ δ then (1 : ℝ) else δ / |r|)
          ∘ fun p => distance (projectPoint p.pixel M0) p.enu))) with
    | none => simp [h]
    | some m => simp [h]
  · simp only [irls2, List.map_map]
    cases h : fitH inliers (some (inliers.map
        ((fun r => if r ≤ δ then (1 : ℝ) else δ / |r|)
          ∘ fun p => distance (projectPoint p.pixel M0) p.enu))) with
    | none => simp [h]
    | some m => simp [h]

/-- Counterexample for C3 as stated: for the similarity kind the source
performs no weighted re-fit at all — with fitters that always succeed and
return the identity matrix, irls2 still returns the zero initial model,
while the claim-side reference step (one weighted re-fit for every kind)
returns the fitted identity. -/
theorem irls2_similarity_no_refit :
    irls2 (fun _ _ => some 1) (fun _ _ => some 1) .similarity [⟨⟨0, 0⟩, ⟨0, 0⟩⟩] 0 35 = 0
    ∧ irlsAsSpecified (fun _ _ => some 1) (fun _ _ => some 1) (fun _ _ => some 1)
        .similarity [⟨⟨0, 0⟩, ⟨0, 0⟩⟩] 0 35 = 1
    ∧ (0 : Mat3) ≠ 1 := by
  refine ⟨rfl, rfl, ?_⟩
  exact zero_ne_one

/-- C4: a failed TPS fit (here: the linear solver fails, as math.lusolve
does on a singular system) leaves a refiner whose warp returns null; the
source then passes that null into projectPoint, so forward projection
through the calibration yields no result instead of falling back to the
base model — while with no refiner installed the same calibration
projects through the base model, and a fit attempt with fewer than 3
control points leaves the refiner unfitted. -/
theorem tps_failure_not_recovered :
    (RefinerTPS.fit {} (fun _ _ => none) [⟨0, 0⟩, ⟨1, 0⟩, ⟨0, 1⟩] [⟨0, 0⟩, ⟨1, 0⟩, ⟨0, 1⟩] 0).weightsX = none
    ∧ (RefinerTPS.fit {} (fun _ _ => none) [⟨0, 0⟩, ⟨1, 0⟩, ⟨0, 1⟩] [⟨0, 0⟩, ⟨1, 0⟩, ⟨0, 1⟩] 0).warp ⟨2, 3⟩ = none
    ∧ projectPixelToEnu
        ⟨some 1, some (RefinerTPS.fit {} (fun _ _ => none) [⟨0, 0⟩, ⟨1, 0⟩, ⟨0, 1⟩] [⟨0, 0⟩, ⟨1, 0⟩, ⟨0, 1⟩] 0),
         some ⟨0, 0⟩, []⟩ ⟨2, 3⟩ = none
    ∧ projectPixelToEnu
        (enableTPS ⟨some 1, none, some ⟨0, 0⟩,
          [⟨⟨0, 0⟩, ⟨0, 0⟩⟩, ⟨⟨1, 0⟩, ⟨1, 0⟩⟩, ⟨⟨0, 1⟩, ⟨0, 1⟩⟩]⟩ (fun _ _ => none) 0) ⟨2, 3⟩ = none
    ∧ projectPixelToEnu ⟨some 1, none, some ⟨0, 0⟩, []⟩ ⟨2, 3⟩ = some (projectPoint ⟨2, 3⟩ 1)
    ∧ RefinerTPS.fit {} (fun _ _ => none) [⟨0, 0⟩, ⟨1, 0⟩] [⟨0, 0⟩, ⟨1, 0⟩] 0 = {} := by
  have hfit : RefinerTPS.fit {} (fun _ _ => none) [⟨0, 0⟩, ⟨1, 0⟩, ⟨0, 1⟩] [⟨0, 0⟩, ⟨1, 0⟩, ⟨0, 1⟩] 0
      = { controlPoints := some [⟨0, 0⟩, ⟨1, 0⟩, ⟨0, 1⟩], weightsX := none, weightsY := none } := by
    unfold RefinerTPS.fit
    norm_num
  refine ⟨?_, ?_, ?_, ?_, rfl, ?_⟩
  · rw [hfit]
  · rw [hfit]; rfl
  · rw [hfit]
    rfl
  · have henable : enableTPS ⟨some 1, none, some ⟨0, 0⟩,
        [⟨⟨0, 0⟩, ⟨0, 0⟩⟩, ⟨⟨1, 0⟩, ⟨1, 0⟩⟩, ⟨⟨0, 1⟩, ⟨0, 1⟩⟩]⟩ (fun _ _ => none) 0
        = { transform := some 1, tpsRefiner := some (RefinerTPS.fit {} (fun _ _ => none)
              [⟨0, 0⟩, ⟨1, 0⟩, ⟨0, 1⟩] [projectPoint ⟨0, 0⟩ 1⁻¹, projectPoint ⟨1, 0⟩ 1⁻¹, projectPoint ⟨0, 1⟩ 1⁻¹] 0),
            enuOrigin := some ⟨0, 0⟩,
            inliers := [⟨⟨0, 0⟩, ⟨0, 0⟩⟩, ⟨⟨1, 0⟩, ⟨1, 0⟩⟩, ⟨⟨0, 1⟩, ⟨0, 1⟩⟩] } := by
      unfold enableTPS matInv
      norm_num [Matrix.det_one]
    rw [henable]
    have hfit2 : RefinerTPS.fit {} (fun _ _ => none)
        [⟨0, 0⟩, ⟨1, 0⟩, ⟨0, 1⟩] [projectPoint ⟨0, 0⟩ 1⁻¹, projectPoint ⟨1, 0⟩ 1⁻¹, projectPoint ⟨0, 1⟩ 1⁻¹] 0
        = { controlPoints := some [⟨0, 0⟩, ⟨1, 0⟩, ⟨0, 1⟩], weightsX := none, weightsY := none } := by
      unfold RefinerTPS.fit
      norm_num
    rw [hfit2]
    rfl
  · unfold RefinerTPS.fit
    norm_num

/-- C9: toPixel combines the map uncertainty and the reported accuracy as
sigmaTotal = sqrt(accuracy^2 + sigmaMap^2), and for a nonnegative reported
accuracy sigmaTotal is at least max(sigmaMap, accuracy). -/
theorem toPixel_sigma (pp : PositionProjector) (pos : GpsPos) (m : ProjCalibModel) (a : ℝ)
    (hm : pp.model = some m) (ha : pos.accuracy = some a) (h0 : 0 ≤ a) :
    toPixel pp pos = some ⟨m.projectLatLonToPixel pos.lat pos.lon,
        sigmaMapFor m (m.projectLatLonToPixel pos.lat pos.lon),
        Real.sqrt (a * a
          + sigmaMapFor m (m.projectLatLonToPixel pos.lat pos.lon)
            * sigmaMapFor m (m.projectLatLonToPixel pos.lat pos.lon))⟩
    ∧ max (sigmaMapFor m (m.projectLatLonToPixel pos.lat pos.lon)) a
        ≤ Real.sqrt (a * a
            + sigmaMapFor m (m.projectLatLonToPixel pos.lat pos.lon)
              * sigmaMapFor m (m.projectLatLonToPixel pos.lat pos.lon)) := by
  have hs0 : 0 ≤ sigmaMapFor m (m.projectLatLonToPixel pos.lat pos.lon) :=
    sigmaMapFor_nonneg _ _
  constructor
  · unfold toPixel
    rw [hm, ha]
    rfl
  · apply max_le
    · calc sigmaMapFor m (m.projectLatLonToPixel pos.lat pos.lon)
          = Real.sqrt (sigmaMapFor m (m.projectLatLonToPixel pos.lat pos.lon)
              * sigmaMapFor m (m.projectLatLonToPixel pos.lat pos.lon)) :=
            (Real.sqrt_mul_self hs0).symm
        _ ≤ _ := Real.sqrt_le_sqrt (by nlinarith [mul_self_nonneg a])
    · have hss := mul_self_nonneg (sigmaMapFor m (m.projectLatLonToPixel pos.lat pos.lon))
      calc a = Real.sqrt (a * a) := (Real.sqrt_mul_self h0).symm
        _ ≤ _ := Real.sqrt_le_sqrt (by nlinarith [hss])

theorem mem_inliersOf {TM : Type} (applyT : TM → Pt → Pt) (pairs : List WPair) (th : ℝ)
    (m : TM) (p : WPair) :
    p ∈ inliersOf applyT pairs th m ↔ p ∈ pairs ∧ distance (applyT m p.world) p.pixel ≤ th := by
  induction pairs with
  | nil => simp [inliersOf]
  | cons a rest ih =>
    unfold inliersOf
    by_cases hd : distance (applyT m a.world) a.pixel ≤ th
    · rw [if_pos hd]
      simp only [List.mem_cons]
      constructor
      · rintro (rfl | hp)
        · exact ⟨.inl rfl, hd⟩
        · exact ⟨.inr (ih.mp hp).1, (ih.mp hp).2⟩
      · rintro ⟨rfl | hp, hdp⟩
        · exact .inl rfl
        · exact .inr (ih.mpr ⟨hp, hdp⟩)
    · rw [if_neg hd]
      constructor
      · intro hp
        exact ⟨List.mem_cons_of_mem a (ih.mp hp).1, (ih.mp hp).2⟩
      · rintro ⟨hp, hdp⟩
        rcases List.mem_cons.mp hp with rfl | hp2
        · exact absurd hdp hd
        · exact ih.mpr ⟨hp2, hdp⟩

theorem ransacLoop_eq (TM : Type)
    (compute : ModelType → List WPair → Option (List ℝ) → Except CalibError TM)
    (applyT : TM → Pt → Pt) (pairs : List WPair) (t : ModelType) (opts : CalibOpts) :
    ∀ (idxs : List Nat) (best : Option TM × List WPair),
      ransacLoop compute applyT pairs t opts idxs best
        = firstMaxFold (idxs.filterMap fun i =>
            match compute t (pickSubset pairs (minPairs t) opts.rng (i * (pairs.length - 1))) none with
            | .error _ => none
            | .ok m => some (m, inliersOf applyT pairs opts.threshold m)) best := by
  intro idxs
  induction idxs with
  | nil => intro best; rfl
  | cons i rest ih =>
    intro best
    rw [List.filterMap_cons]
    cases hc : compute t (pickSubset pairs (minPairs t) opts.rng (i * (pairs.length - 1))) none with
    | error e =>
      simp only [ransacLoop, hc]
      exact ih best
    | ok m =>
      simp only [ransacLoop, hc, firstMaxFold]
      by_cases hlt : best.2.length < (inliersOf applyT pairs opts.threshold m).length
      · rw [if_pos hlt, if_pos hlt]
        exact ih _
      · rw [if_neg hlt, if_neg hlt]
        exact ih best

theorem firstMaxFold_spec {TM : Type} :
    ∀ (l : List (TM × List WPair)) (best : Option TM × List WPair),
      (firstMaxFold l best = best ∧ ∀ c ∈ l, c.2.length ≤ best.2.length)
      ∨ ∃ l1 c l2, l = l1 ++ c :: l2
          ∧ firstMaxFold l best = (some c.1, c.2)
          ∧ best.2.length < c.2.length
          ∧ (∀ c1 ∈ l1, c1.2.length < c.2.length)
          ∧ (∀ c2 ∈ l2, c2.2.length ≤ c.2.length) := by
  intro l
  induction l with
  | nil => intro best; exact .inl ⟨rfl, by simp⟩
  | cons a rest ih =>
    intro best
    by_cases hc : best.2.length < a.2.length
    · rcases ih (some a.1, a.2) with ⟨heq, hall⟩ | ⟨l1, c, l2, hdec, heq, hlt, h1, h2⟩
      · right
        refine ⟨[], a, rest, by simp, ?_, hc, by simp, fun c2 hc2 => hall c2 hc2⟩
        unfold firstMaxFold
        rw [if_pos hc]
        exact heq
      · right
        refine ⟨a :: l1, c, l2, by rw [hdec, List.cons_append], ?_, lt_trans hc hlt, ?_, h2⟩
        · unfold firstMaxFold
          rw [if_pos hc]
          exact heq
        · intro c1 hc1
          rcases List.mem_cons.mp hc1 with rfl | hmem
          · exact hlt
          · exact h1 c1 hmem
    · rcases ih best with ⟨heq, hall⟩ | ⟨l1, c, l2, hdec, heq, hlt, h1, h2⟩
      · left
        constructor
        · unfold firstMaxFold
          rw [if_neg hc]
          exact heq
        · intro c2 hc2
          rcases List.mem_cons.mp hc2 with rfl | hmem
          · exact not_lt.mp hc
          · exact hall c2 hmem
      · right
        refine ⟨a :: l1, c, l2, by rw [hdec, List.cons_append], ?_, hlt, ?_, h2⟩
        · unfold firstMaxFold
          rw [if_neg hc]
          exact heq
        · intro c1 hc1
          rcases List.mem_cons.mp hc1 with rfl | hmem
          · exact lt_of_le_of_lt (not_lt.mp hc) hlt
          · exact h1 c1 hmem

theorem candidateResults_snd (TM : Type)
    (compute : ModelType → List WPair → Option (List ℝ) → Except CalibError TM)
    (applyT : TM → Pt → Pt) (pairs : List WPair) (t : ModelType) (opts : CalibOpts) :
    ∀ c ∈ candidateResults compute applyT pairs t opts,
      c.2 = inliersOf applyT pairs opts.threshold c.1 := by
  intro c hc
  unfold candidateResults at hc
  rw [List.mem_filterMap] at hc
  obtain ⟨i, _, hi⟩ := hc
  revert hi
  cases hcp : compute t (pickSubset pairs (minPairs t) opts.rng (i * (pairs.length - 1))) none with
  | error e => simp
  | ok m =>
    intro hi
    simp only [Option.some.injEq] at hi
    rw [← hi]

/-- C2 (amended): every ransac iteration fits a candidate from a random
minimal subset; a candidate's inliers are exactly the input pairs whose
residual distance under it is at most the inlier threshold (the source
comparison is less-or-equal, not strictly below; the default threshold is
40); the loop keeps the candidate with the strictly largest inlier count,
ties keeping the first found, so a successful run returns the inliers of
the first candidate attaining the maximum count, together with the result
of the unweighted re-fit of that candidate's inlier set after the loop;
and the run fails with the ransac error exactly when no sample produced a
valid model (given that every valid candidate admits at least one inlier,
which holds for the real fitters since a minimal subset is fitted exactly,
and that the fitters never themselves return the ransac error). -/
theorem ransac_consensus (TM : Type)
    (compute : ModelType → List WPair → Option (List ℝ) → Except CalibError TM)
    (applyT : TM → Pt → Pt) (pairs : List WPair) (t : ModelType) (opts : CalibOpts)
    (hne : ∀ c ∈ candidateResults compute applyT pairs t opts, c.2 ≠ [])
    (hnf : ∀ (ps : List WPair) w, compute t ps w ≠ .error .ransacFailed) :
    (ransac compute applyT pairs t opts = .error .ransacFailed
        ↔ candidateResults compute applyT pairs t opts = [])
    ∧ (∀ m inl, ransac compute applyT pairs t opts = .ok (m, inl) →
        ∃ m0 l1 l2,
          candidateResults compute applyT pairs t opts = l1 ++ (m0, inl) :: l2
          ∧ inl = inliersOf applyT pairs opts.threshold m0
          ∧ (∀ c ∈ l1, c.2.length < inl.length)
          ∧ (∀ c ∈ l2, c.2.length ≤ inl.length)
          ∧ compute t inl none = .ok m)
    ∧ (∀ m p, p ∈ inliersOf applyT pairs opts.threshold m
        ↔ p ∈ pairs ∧ distance (applyT m p.world) p.pixel ≤ opts.threshold)
    ∧ ({} : CalibOpts).threshold = 40 := by
  have hloop : ransacLoop compute applyT pairs t opts (List.range opts.samples) (none, [])
      = firstMaxFold (candidateResults compute applyT pairs t opts) (none, []) := by
    unfold candidateResults
    exact ransacLoop_eq TM compute applyT pairs t opts (List.range opts.samples) (none, [])
  rcases firstMaxFold_spec (candidateResults compute applyT pairs t opts) (none, [])
    with ⟨heq, hall⟩ | ⟨l1, c, l2, hdec, heq, hlt0, h1, h2⟩
  · have hcands : candidateResults compute applyT pairs t opts = [] := by
      rw [List.eq_nil_iff_forall_not_mem]
      intro c hc
      have hlen := hall c hc
      exact hne c hc (List.eq_nil_of_length_eq_zero (Nat.le_zero.mp hlen))
    have hransac : ransac compute applyT pairs t opts = .error .ransacFailed := by
      unfold ransac
      rw [hloop, heq]
    refine ⟨⟨fun _ => hcands, fun _ => hransac⟩, ?_,
      fun m p => mem_inliersOf applyT pairs opts.threshold m p, rfl⟩
    intro m inl hok
    rw [hransac] at hok
    exact absurd hok (by simp)
  · have hcmem : c ∈ candidateResults compute applyT pairs t opts := by
      rw [hdec]
      exact List.mem_append_right _ (List.mem_cons_self _ _)
    have hc2 : c.2 = inliersOf applyT pairs opts.threshold c.1 :=
      candidateResults_snd TM compute applyT pairs t opts c hcmem
    have hransac : ransac compute applyT pairs t opts
        = (compute t c.2 none).map (fun m => (m, c.2)) := by
      unfold ransac
      rw [hloop, heq]
    refine ⟨⟨?_, ?_⟩, ?_, fun m p => mem_inliersOf applyT pairs opts.threshold m p, rfl⟩
    · intro hr
      rw [hransac] at hr
      exfalso
      cases hcp : compute t c.2 none with
      | error e =>
        rw [hcp] at hr
        simp only [Except.map] at hr
        have he : e = .ransacFailed := by
          cases hr
          rfl
        exact hnf c.2 none (by rw [hcp, he])
      | ok m =>
        rw [hcp] at hr
        exact absurd hr (by simp [Except.map])
    · intro hcands
      rw [hcands] at hdec
      exact absurd hdec (by simp)
    · intro m inl hok
      rw [hransac] at hok
      cases hcp : compute t c.2 none with
      | error e =>
        rw [hcp] at hok
        exact absurd hok (by simp [Except.map])
      | ok m2 =>
        rw [hcp] at hok
        simp only [Except.map, Except.ok.injEq, Prod.mk.injEq] at hok
        obtain ⟨rfl, rfl⟩ := hok
        refine ⟨c.1, l1, l2, ?_, hc2, h1, h2, hcp⟩
        rw [Prod.mk.eta]
        exact hdec

/-- Witness for C2 on a single coincident pair with the trivial fitting
table: the one candidate has a nonempty inlier set, the table never
returns the ransac error, and the failure equivalence holds. -/
theorem ransac_consensus_witness :
    (∀ c ∈ candidateResults toyComputeU toyApplyU [wz] .similarity { samples := 1 }, c.2 ≠ [])
    ∧ (∀ (ps : List WPair) w, toyComputeU .similarity ps w ≠ .error .ransacFailed)
    ∧ (ransac toyComputeU toyApplyU [wz] .similarity { samples := 1 } = .error .ransacFailed
        ↔ candidateResults toyComputeU toyApplyU [wz] .similarity { samples := 1 } = []) := by
  have hd : distance (toyApplyU () wz.world) wz.pixel = 0 := by
    simp [distance, toyApplyU, wz]
  have hinl : inliersOf toyApplyU [wz] ({ samples := 1 } : CalibOpts).threshold () = [wz] := by
    simp [inliersOf, hd, (by norm_num : (0 : ℝ) ≤ 40)]
  have hcands : candidateResults toyComputeU toyApplyU [wz] .similarity { samples := 1 }
      = [((), [wz])] := by
    unfold candidateResults
    simp [toyComputeU, show List.range 1 = [0] from rfl, hinl]
  have h1 : ∀ c ∈ candidateResults toyComputeU toyApplyU [wz] .similarity { samples := 1 },
      c.2 ≠ [] := by
    rw [hcands]
    intro c hc
    rw [List.mem_singleton.mp hc]
    simp
  have h2 : ∀ (ps : List WPair) w, toyComputeU .similarity ps w ≠ .error .ransacFailed := by
    intro ps w
    simp [toyComputeU]
  exact ⟨h1, h2,
    (ransac_consensus Unit toyComputeU toyApplyU [wz] .similarity { samples := 1 } h1 h2).1⟩

/-- Counterexample for C2 as stated: a pair whose residual distance equals
the threshold exactly is counted as an inlier and returned in the inlier
set, so the inliers are not those strictly below the threshold. -/
theorem ransac_boundary_inlier :
    ransac toyComputeU toyApplyU [wb] .similarity { samples := 1 } = .ok ((), [wb])
    ∧ distance (toyApplyU () wb.world) wb.pixel = 40
    ∧ ¬ distance (toyApplyU () wb.world) wb.pixel < 40 := by
  have hd : distance (toyApplyU () wb.world) wb.pixel = 40 := by
    unfold distance toyApplyU wb
    rw [show ((0 : ℝ) - 40) ^ 2 + ((0 : ℝ) - 0) ^ 2 = 40 ^ 2 by norm_num]
    exact Real.sqrt_sq (by norm_num)
  have hinl : inliersOf toyApplyU [wb] ({ samples := 1 } : CalibOpts).threshold () = [wb] := by
    simp [inliersOf, hd]
  refine ⟨?_, hd, by rw [hd]; exact lt_irrefl 40⟩
  unfold ransac
  have hloop1 : ransacLoop toyComputeU toyApplyU [wb] .similarity { samples := 1 }
      (List.range 1) (none, []) = (some (), [wb]) := by
    simp [ransacLoop, toyComputeU, show List.range 1 = [0] from rfl, hinl]
  rw [hloop1]
  simp [toyComputeU, Except.map]

/-- C1: calibrate with fewer than 2 pairs fails with the insufficiency
error of its opening check, before the model type is even read; an
explicitly requested model type with too few pairs fails with the
per-model insufficiency error, and with enough pairs the requested type is
the one the pipeline runs at; with no requested type the class is chosen
by count (4 or more homography, exactly 3 affine, 2 similarity) and the
pipeline runs at that class; computeTransform picks the per-class fit
directly by count, each class fitter only ever producing a model of its
own tag. -/
theorem calibrate_model_selection (TM : Type)
    (compute : ModelType → List WPair → Option (List ℝ) → Except CalibError TM)
    (applyT : TM → Pt → Pt) (pairs : List WPair) (opts : CalibOpts) :
    (pairs.length < 2 →
      calibrate compute applyT pairs opts = .error .needAtLeastTwoPairs)
    ∧ (∀ t, opts.modelType = some t → 2 ≤ pairs.length → pairs.length < minPairs t →
        calibrate compute applyT pairs opts = .error .insufficientPairsForModel)
    ∧ (∀ t, opts.modelType = some t → minPairs t ≤ pairs.length →
        calibrate compute applyT pairs opts = calibratePost compute applyT t pairs opts)
    ∧ (opts.modelType = none → 4 ≤ pairs.length →
        calibrate compute applyT pairs opts = calibratePost compute applyT .homography pairs opts)
    ∧ (opts.modelType = none → pairs.length = 3 →
        calibrate compute applyT pairs opts = calibratePost compute applyT .affine pairs opts)
    ∧ (opts.modelType = none → pairs.length = 2 →
        calibrate compute applyT pairs opts = calibratePost compute applyT .similarity pairs opts)
    ∧ (∀ (ps : List WPair) w, ps.length = 2 → computeTransform ps w = computeSimilarity ps w)
    ∧ (∀ (ps : List WPair) w, ps.length = 3 → computeTransform ps w = computeAffine ps w)
    ∧ (∀ (ps : List WPair) w, 4 ≤ ps.length → computeTransform ps w = computeHomography ps w)
    ∧ (∀ (ps : List WPair) w, ps.length < 2 → computeTransform ps w = .error .insufficientPairs)
    ∧ (∀ (ps : List WPair) w, (∃ e, computeSimilarity ps w = .error e)
        ∨ ∃ s a tx ty, computeSimilarity ps w = .ok (.similarity s a tx ty))
    ∧ (∀ (ps : List WPair) w, (∃ e, computeAffine ps w = .error e)
        ∨ ∃ a b c d tx ty, computeAffine ps w = .ok (.affine a b c d tx ty))
    ∧ (∀ (ps : List WPair) w, (∃ e, computeHomography ps w = .error e)
        ∨ ∃ h, computeHomography ps w = .ok (.homography h)) := by
  have hmin2 : ∀ t : ModelType, 2 ≤ minPairs t := by
    intro t
    cases t <;> simp [minPairs]
  refine ⟨?_, ?_, ?_, ?_, ?_, ?_, ?_, ?_, ?_, ?_, ?_, ?_, ?_⟩
  · intro h
    unfold calibrate
    rw [if_pos h]
  · intro t ht h2 hlt
    unfold calibrate
    rw [if_neg (not_lt.mpr h2)]
    simp only [ht]
    rw [if_pos hlt]
  · intro t ht hge
    unfold calibrate
    rw [if_neg (not_lt.mpr (le_trans (hmin2 t) hge))]
    simp only [ht]
    rw [if_neg (not_lt.mpr hge)]
  · intro ht h4
    have hsel : (if 4 ≤ pairs.length then ModelType.homography
        else if pairs.length = 3 then ModelType.affine else ModelType.similarity)
        = ModelType.homography := by
      rw [if_pos h4]
    unfold calibrate
    rw [if_neg (by omega)]
    simp only [ht, hsel]
    rw [if_neg (by simp only [minPairs]; omega)]
  · intro ht h3
    have hsel : (if 4 ≤ pairs.length then ModelType.homography
        else if pairs.length = 3 then ModelType.affine else ModelType.similarity)
        = ModelType.affine := by
      rw [if_neg (by omega), if_pos h3]
    unfold calibrate
    rw [if_neg (by omega)]
    simp only [ht, hsel]
    rw [if_neg (by simp only [minPairs]; omega)]
  · intro ht h2
    have hsel : (if 4 ≤ pairs.length then ModelType.homography
        else if pairs.length = 3 then ModelType.affine else ModelType.similarity)
        = ModelType.similarity := by
      rw [if_neg (by omega), if_neg (by omega)]
    unfold calibrate
    rw [if_neg (by omega)]
    simp only [ht, hsel]
    rw [if_neg (by simp only [minPairs]; omega)]
  · intro ps w h
    unfold computeTransform
    rw [if_pos h]
  · intro ps w h
    unfold computeTransform
    rw [if_neg (by omega), if_pos h]
  · intro ps w h
    unfold computeTransform
    rw [if_neg (by omega), if_neg (by omega), if_pos h]
  · intro ps w h
    unfold computeTransform
    rw [if_neg (by omega), if_neg (by omega), if_neg (by omega)]
  · intro ps w
    unfold computeSimilarity
    split
    · exact .inl ⟨_, rfl⟩
    · rcases hls : leastSquares
          (ps.flatMap fun p => [[p.world.x, -p.world.y, 1, 0], [p.world.y, p.world.x, 0, 1]])
          (ps.flatMap fun p => [p.pixel.x, p.pixel.y])
          (some ((List.range ps.length).flatMap fun i => [weightAt w i, weightAt w i]))
        with e | sol
      · exact .inl ⟨e, by simp [hls]⟩
      · exact .inr ⟨Real.sqrt ((sol.getD 0 0) ^ 2 + (sol.getD 1 0) ^ 2),
          atan2 (sol.getD 1 0) (sol.getD 0 0), sol.getD 2 0, sol.getD 3 0, by simp [hls]⟩
  · intro ps w
    unfold computeAffine
    split
    · exact .inl ⟨_, rfl⟩
    · rcases hls : leastSquares
          (ps.flatMap fun p => [[p.world.x, p.world.y, 1, 0, 0, 0], [0, 0, 0, p.world.x, p.world.y, 1]])
          (ps.flatMap fun p => [p.pixel.x, p.pixel.y])
          (some ((List.range ps.length).flatMap fun i => [weightAt w i, weightAt w i]))
        with e | sol
      · exact .inl ⟨e, by simp [hls]⟩
      · exact .inr ⟨sol.getD 0 0, sol.getD 1 0, sol.getD 3 0, sol.getD 4 0,
          sol.getD 2 0, sol.getD 5 0, by simp [hls]⟩
  · intro ps w
    unfold computeHomography
    split
    · exact .inl ⟨_, rfl⟩
    · rcases hls : leastSquares
          (ps.flatMap fun p =>
            [[p.world.x, p.world.y, 1, 0, 0, 0, -p.pixel.x * p.world.x, -p.pixel.x * p.world.y],
             [0, 0, 0, p.world.x, p.world.y, 1, -p.pixel.y * p.world.x, -p.pixel.y * p.world.y]])
          (ps.flatMap fun p => [p.pixel.x, p.pixel.y])
          (some ((List.range ps.length).flatMap fun i => [weightAt w i, weightAt w i]))
        with e | sol
      · exact .inl ⟨e, by simp only [hls]⟩
      · exact .inr ⟨sol ++ [1], by simp only [hls]⟩

/-- Witness for C1 at concrete pair lists of every relevant length, with
the type-recording fitting table standing at the transform import
boundary. -/
theorem calibrate_model_selection_witness :
    (calibrate toyCompute toyApply [wz] {} = .error .needAtLeastTwoPairs)
    ∧ (calibrate toyCompute toyApply [wz, wz] { modelType := some .affine }
        = .error .insufficientPairsForModel)
    ∧ (calibrate toyCompute toyApply [wz, wz, wz] { modelType := some .affine }
        = calibratePost toyCompute toyApply .affine [wz, wz, wz] { modelType := some .affine })
    ∧ (calibrate toyCompute toyApply [wz, wz, wz, wz] {}
        = calibratePost toyCompute toyApply .homography [wz, wz, wz, wz] {})
    ∧ (calibrate toyCompute toyApply [wz, wz, wz] {}
        = calibratePost toyCompute toyApply .affine [wz, wz, wz] {})
    ∧ (calibrate toyCompute toyApply [wz, wz] {}
        = calibratePost toyCompute toyApply .similarity [wz, wz] {})
    ∧ (computeTransform [wz, wz] none = computeSimilarity [wz, wz] none)
    ∧ (computeTransform [wz, wz, wz] none = computeAffine [wz, wz, wz] none)
    ∧ (computeTransform [wz, wz, wz, wz] none = computeHomography [wz, wz, wz, wz] none)
    ∧ (computeTransform [wz] none = .error .insufficientPairs) := by
  refine ⟨?_, ?_, ?_, ?_, ?_, ?_, ?_, ?_, ?_, ?_⟩
  · exact (calibrate_model_selection ModelType toyCompute toyApply [wz] {}).1 (by decide)
  · exact (calibrate_model_selection ModelType toyCompute toyApply [wz, wz]
      { modelType := some .affine }).2.1 .affine rfl (by decide) (by decide)
  · exact (calibrate_model_selection ModelType toyCompute toyApply [wz, wz, wz]
      { modelType := some .affine }).2.2.1 .affine rfl (by decide)
  · exact (calibrate_model_selection ModelType toyCompute toyApply [wz, wz, wz, wz]
      {}).2.2.2.1 rfl (by decide)
  · exact (calibrate_model_selection ModelType toyCompute toyApply [wz, wz, wz]
      {}).2.2.2.2.1 rfl (by decide)
  · exact (calibrate_model_selection ModelType toyCompute toyApply [wz, wz]
      {}).2.2.2.2.2.1 rfl (by decide)
  · exact (calibrate_model_selection ModelType toyCompute toyApply [] {}).2.2.2.2.2.2.1
      [wz, wz] none (by decide)
  · exact (calibrate_model_selection ModelType toyCompute toyApply [] {}).2.2.2.2.2.2.2.1
      [wz, wz, wz] none (by decide)
  · exact (calibrate_model_selection ModelType toyCompute toyApply [] {}).2.2.2.2.2.2.2.2.1
      [wz, wz, wz, wz] none (by decide)
  · exact (calibrate_model_selection ModelType toyCompute toyApply [] {}).2.2.2.2.2.2.2.2.2.1
      [wz] none (by decide)

/-- Witness for C9 at a concrete projector with accuracy 5 and no
metrics. -/
theorem toPixel_sigma_witness :
    (({ model := some { projectLatLonToPixel := fun _ _ => ⟨0, 0⟩ } } : PositionProjector).model
        = some { projectLatLonToPixel := fun _ _ => ⟨0, 0⟩ })
    ∧ (({ lat := 0, lon := 0, accuracy := some 5 } : GpsPos).accuracy = some 5)
    ∧ (0 : ℝ) ≤ 5
    ∧ max (sigmaMapFor { projectLatLonToPixel := fun _ _ => ⟨0, 0⟩ } (⟨0, 0⟩ : Pt)) 5
        ≤ Real.sqrt ((5 : ℝ) * 5
            + sigmaMapFor { projectLatLonToPixel := fun _ _ => ⟨0, 0⟩ } (⟨0, 0⟩ : Pt)
              * sigmaMapFor { projectLatLonToPixel := fun _ _ => ⟨0, 0⟩ } (⟨0, 0⟩ : Pt)) := by
  refine ⟨rfl, rfl, by norm_num, ?_⟩
  exact (toPixel_sigma { model := some { projectLatLonToPixel := fun _ _ => ⟨0, 0⟩ } }
    { lat := 0, lon := 0, accuracy := some 5 } _ 5 rfl rfl (by norm_num)).2

end Snap2Map
